import Mathlib

/-!
Shallow embedding of the RESP protocol engine of this repository: the
streaming decoder (parser package: parse0, parseBulkString, parseArray,
parseRDBBulkString) and the reply serializer (protocol package: the
ToBytes methods and Try2ErrorReply).  Bytes are modelled as lists of
natural numbers, the incoming stream as a finite byte list (end of list
is end of stream), and the output channel as the list of Payload values
delivered before the loop ends; the loop ends either by closing the
channel or by the recovered panic that a wrapped int64 slice length
provokes, and parse0Closed records which of the two happened.
-/

/-- Byte strings: each element is one byte value. -/
abbrev Bytes := List Nat

/-- The two byte line terminator, carriage return then line feed. -/
def crlf : Bytes := [13, 10]

/-- Bytes of an ASCII string literal. -/
def ascii (s : String) : Bytes := s.data.map Char.toNat

/-- strings.HasPrefix: hasPfx p s is true when s starts with p. -/
def hasPfx : Bytes → Bytes → Bool
  | [], _ => true
  | _ :: _, [] => false
  | p :: ps, c :: cs => p == c && hasPfx ps cs

/-- Accumulate the value of a decimal digit run; fails on a non digit byte. -/
def digitsValAux : Bytes → Nat → Option Nat
  | [], acc => some acc
  | c :: rest, acc =>
    if 48 ≤ c ∧ c ≤ 57 then digitsValAux rest (acc * 10 + (c - 48)) else none

/-- Wrap of an integer into the signed 64 bit window, reducing modulo
two to the 64: this is how Go int64 addition behaves on overflow. -/
def wrapInt64 (v : Int) : Int := (v + 2 ^ 63) % 2 ^ 64 - 2 ^ 63

/-- strconv.ParseInt(s, 10, bits): optional single sign, at least one
digit, all bytes digits, and the value must fit in a signed bits wide
integer; any violation is a parse error (none). -/
def parseIntGo (bits : Nat) (s : Bytes) : Option Int :=
  match s with
  | [] => none
  | c :: rest =>
    let neg := c = 45
    let ds := if c = 45 ∨ c = 43 then rest else s
    if ds.isEmpty then none
    else
      match digitsValAux ds 0 with
      | none => none
      | some m =>
        let v : Int := if neg then -(m : Int) else (m : Int)
        if -(2 : Int) ^ (bits - 1) ≤ v ∧ v ≤ (2 : Int) ^ (bits - 1) - 1 then some v
        else none

/-- Digit expansion by repeated division; the first argument is fuel that
only bounds the recursion depth (the quotient strictly shrinks, so fuel
n plus one never runs out for input n). -/
def natDigitsAux : Nat → Nat → Bytes
  | 0, _ => []
  | fuel + 1, n =>
    if n < 10 then [48 + n] else natDigitsAux fuel (n / 10) ++ [48 + n % 10]

/-- strconv.Itoa for a natural number: its decimal digit bytes. -/
def natDigits (n : Nat) : Bytes := natDigitsAux (n + 1) n

/-- strconv.FormatInt base 10 for a signed integer. -/
def intToBytes (n : Int) : Bytes :=
  if n < 0 then 45 :: natDigits (-n).toNat else natDigits n.toNat

/-- nullBulkBytes.  Modelled from the spec: the constant nullBulkBytes and
MakeNullBulkReply are not among the provided sources (only their callers
are); the spec fixes the serialization of the absent bulk value to the
five bytes of a dollar sign, minus one and the terminator. -/
def nullBulkBytes : Bytes := [36, 45, 49] ++ crlf

/-- The closed set of reply variants of the protocol package that the
decoder and the claims use: BulkReply (with a possibly nil Arg),
MultiBulkReply (elements possibly nil), StatusReply, IntReply and
StandardErrReply. -/
inductive Reply
  | bulk (arg : Option Bytes)
  | multiBulk (args : List (Option Bytes))
  | status (s : Bytes)
  | int (code : Int)
  | err (s : Bytes)
deriving DecidableEq, Repr

/-- MakeNullBulkReply.  Modelled from the spec: the null bulk reply is the
absent bulk value, distinct from the zero length bulk string. -/
def nullBulkReply : Reply := Reply.bulk none

/-- MakeEmptyMultiBulkReply.  Modelled from the spec: the designated empty
array value is semantically a zero length MultiBulk. -/
def emptyMultiBulkReply : Reply := Reply.multiBulk []

/-- One element of a MultiBulkReply as written by MultiBulkReply.ToBytes:
a nil element is written as the null bulk frame, a present element as a
dollar header, its length, the terminator, the bytes and the terminator. -/
def bulkElemBytes : Option Bytes → Bytes
  | none => [36, 45, 49] ++ crlf
  | some b => [36] ++ natDigits b.length ++ crlf ++ b ++ crlf

/-- The ToBytes serialization of each reply variant, byte for byte as in
the protocol package. -/
def replyToBytes : Reply → Bytes
  | Reply.bulk none => nullBulkBytes
  | Reply.bulk (some b) => [36] ++ natDigits b.length ++ crlf ++ b ++ crlf
  | Reply.multiBulk args =>
      [42] ++ natDigits args.length ++ crlf ++ (args.map bulkElemBytes).flatten
  | Reply.status s => [43] ++ s ++ crlf
  | Reply.int n => [58] ++ intToBytes n ++ crlf
  | Reply.err s => [45] ++ s ++ crlf

/-- The single pass buffer length computation of MultiBulkReply.ToBytes:
the header cost plus, per element, the null frame cost or the framed
element cost, exactly as the Go measuring loop accumulates it. -/
def mbBufLen (args : List (Option Bytes)) : Nat :=
  args.foldl
    (fun bufLen arg =>
      match arg with
      | none => bufLen + 3 + 2
      | some b => bufLen + 1 + (natDigits b.length).length + 2 + b.length + 2)
    (1 + (natDigits args.length).length + 2)

/-- The decoder error classes: transport read failures, recoverable
protocol errors (built by protocolError), and the three error values
built inside parseRDBBulkString. -/
inductive DecErr
  | transport
  | protocol (msg : Bytes)
  | failedReadBytes
  | emptyHeader
  | illegalRdbHeader (header : Bytes)
deriving DecidableEq, Repr

/-- Only protocol errors are recoverable; every other error class makes
parse0 close the channel after delivering it. -/
def DecErr.isTerminal : DecErr → Bool
  | DecErr.protocol _ => false
  | _ => true

/-- One decoded unit delivered on the output channel: a reply value or an
error, never both. -/
inductive Payload
  | data (r : Reply)
  | err (e : DecErr)
deriving DecidableEq, Repr

/-- A payload is a terminal error payload when it carries an error of a
terminal class. -/
def Payload.isTermErr : Payload → Bool
  | Payload.data _ => false
  | Payload.err e => e.isTerminal

/-- Result of a helper called from the decode loop: the payloads it sent
plus the remaining stream, the error it returned to parse0 (the Go
helpers never send a payload on the same call that returns an error), or
a runtime panic inside the helper (a slice allocation with a negative
wrapped length); the panic is recovered at the top of parse0, which then
returns without sending anything further and without closing the
channel. -/
inductive HRes
  | ok (out : List Payload) (rest : Bytes)
  | fail (e : DecErr)
  | panicked
deriving DecidableEq, Repr

/-- bufio Reader.ReadBytes with delimiter line feed over a finite stream:
the line up to and including the first line feed plus the rest, or none
when the stream ends before a line feed (the read error case). -/
def splitAtNL : Bytes → Option (Bytes × Bytes)
  | [] => none
  | c :: rest =>
    if c = 10 then some ([10], rest)
    else
      match splitAtNL rest with
      | none => none
      | some (l, r) => some (c :: l, r)

/-- io.ReadFull of n bytes: exactly n bytes and the rest, or none when
fewer than n bytes remain (the short read error case). -/
def readFull (n : Nat) (s : Bytes) : Option (Bytes × Bytes) :=
  if n ≤ s.length then some (s.take n, s.drop n) else none

/-- bytes.TrimSuffix with the two byte terminator: strip it when the list
ends with it, otherwise return the list unchanged. -/
def trimCRLF (l : Bytes) : Bytes :=
  if l.drop (l.length - 2) = [13, 10] then l.take (l.length - 2) else l

/-- The line shape guard of the decode loop: a line of length at most two
or whose second to last byte is not a carriage return is skipped. -/
def skipLine (ln : Bytes) : Bool :=
  decide (ln.length ≤ 2 ∨ ln[ln.length - 2]? ≠ some 13)

/-- The element header shape guard inside the parseArray loop: the raw
line must have length at least four, a carriage return as second to last
byte, and a dollar sign as first byte. -/
def elemHeaderBadShape (ln : Bytes) : Bool :=
  decide (ln.length < 4 ∨ ln[ln.length - 2]? ≠ some 13 ∨ ln.head? ≠ some 36)

/-- bytes.Split on a single space byte: every space starts a new token,
consecutive spaces produce empty tokens, and the result is never empty. -/
def splitOnSpace : Bytes → List Bytes
  | [] => [[]]
  | c :: rest =>
    if c = 32 then [] :: splitOnSpace rest
    else
      match splitOnSpace rest with
      | [] => [[c]]
      | t :: ts => (c :: t) :: ts

/-- Message head of the illegal number protocol error. -/
def msgIllegalNumber : Bytes := ascii "illegal number "

/-- Message head of the illegal bulk string header protocol error raised
by parseBulkString and by the length parse failure inside parseArray. -/
def msgIllegalBulkHeader : Bytes := ascii "illegal bulk string header: "

/-- Message head of the malformed element header protocol error raised by
the line shape guard inside parseArray. -/
def msgIllegalElemHeader : Bytes := ascii "illegal bulk string header "

/-- Message head of the illegal array header protocol error. -/
def msgIllegalArrayHeader : Bytes := ascii "illegal array header "

/-- The FULLRESYNC marker checked on status line content. -/
def fullresyncBytes : Bytes := ascii "FULLRESYNC"

/-- parseBulkString: parse the length after the dollar byte of the
stripped header line; a parse failure or a length below minus one is a
recoverable protocol error, minus one is the null bulk reply, otherwise
allocate length plus two bytes (the sum computed in int64, so for a
length of two to the 63 minus two or minus one it wraps negative and the
allocation panics, killing the goroutine), read that many bytes, strip
the trailing terminator and emit the bulk reply; a short read is
returned to parse0 as a transport error.  Allocation failure for huge
positive lengths is a resource exhaustion question outside this
embedding. -/
def parseBulkString (header : Bytes) (s : Bytes) : HRes :=
  match parseIntGo 64 (header.drop 1) with
  | none => HRes.ok [Payload.err (DecErr.protocol (msgIllegalBulkHeader ++ header))] s
  | some strLen =>
    if strLen < -1 then
      HRes.ok [Payload.err (DecErr.protocol (msgIllegalBulkHeader ++ header))] s
    else if strLen = -1 then
      HRes.ok [Payload.data nullBulkReply] s
    else if wrapInt64 (strLen + 2) < 0 then
      HRes.panicked
    else
      match readFull (wrapInt64 (strLen + 2)).toNat s with
      | none => HRes.fail DecErr.transport
      | some (body, rest) =>
          HRes.ok [Payload.data (Reply.bulk (some (body.take (body.length - 2))))] rest

/-- The element loop of parseArray: read one raw line per remaining
element; a malformed line or length emits a protocol error and breaks to
the emission of the accumulated slice; a sub length of minus one appends
an empty element; otherwise allocate sub length plus two bytes (the sum
computed in int64, wrapping negative and panicking exactly as in
parseBulkString) and read the element body; a read failure is returned
to parse0 as a transport error; when the loop ends the accumulated slice
is emitted as one MultiBulk payload. -/
def parseArrayLoop : Nat → List (Option Bytes) → Bytes → HRes
  | 0, acc, s => HRes.ok [Payload.data (Reply.multiBulk acc)] s
  | rem + 1, acc, s =>
    match splitAtNL s with
    | none => HRes.fail DecErr.transport
    | some (ln, r) =>
      if elemHeaderBadShape ln then
        HRes.ok [Payload.err (DecErr.protocol (msgIllegalElemHeader ++ ln)),
                 Payload.data (Reply.multiBulk acc)] r
      else
        match parseIntGo 64 ((ln.take (ln.length - 2)).drop 1) with
        | none =>
            HRes.ok [Payload.err (DecErr.protocol (msgIllegalBulkHeader ++ ln)),
                     Payload.data (Reply.multiBulk acc)] r
        | some strLen =>
          if strLen < -1 then
            HRes.ok [Payload.err (DecErr.protocol (msgIllegalBulkHeader ++ ln)),
                     Payload.data (Reply.multiBulk acc)] r
          else if strLen = -1 then
            parseArrayLoop rem (acc ++ [some []]) r
          else if wrapInt64 (strLen + 2) < 0 then
            HRes.panicked
          else
            match readFull (wrapInt64 (strLen + 2)).toNat r with
            | none => HRes.fail DecErr.transport
            | some (body, rest) =>
                parseArrayLoop rem (acc ++ [some (body.take strLen.toNat)]) rest

/-- parseArray: parse the declared element count from the stripped header
as a signed 32 bit integer; a parse failure or a negative count is a
recoverable protocol error, zero emits the designated empty array value,
otherwise the slice is pre sized to the declared count (make with length
nStrs yields that many nil elements) and the element loop appends to it. -/
def parseArray (header : Bytes) (s : Bytes) : HRes :=
  match parseIntGo 32 (header.drop 1) with
  | none =>
      HRes.ok [Payload.err (DecErr.protocol (msgIllegalArrayHeader ++ header.drop 1))] s
  | some nStrs =>
    if nStrs < 0 then
      HRes.ok [Payload.err (DecErr.protocol (msgIllegalArrayHeader ++ header.drop 1))] s
    else if nStrs = 0 then
      HRes.ok [Payload.data emptyMultiBulkReply] s
    else
      parseArrayLoop nStrs.toNat (List.replicate nStrs.toNat none) s

/-- parseRDBBulkString: the replication raw bulk sub mode entered after a
FULLRESYNC status line.  Read one header line, strip a trailing
terminator if present, reject an empty header, parse the bytes after the
first header byte as a signed 64 bit length which must be positive, then
read exactly that many raw bytes with no trailing terminator and emit
them as one bulk payload; every failure is returned to parse0, which
treats it as terminal. -/
def parseRDBBulkString (s : Bytes) : HRes :=
  match splitAtNL s with
  | none => HRes.fail DecErr.failedReadBytes
  | some (ln, r) =>
    if (trimCRLF ln).length = 0 then HRes.fail DecErr.emptyHeader
    else
      match parseIntGo 64 ((trimCRLF ln).drop 1) with
      | none => HRes.fail (DecErr.illegalRdbHeader (trimCRLF ln))
      | some strLen =>
        if strLen ≤ 0 then HRes.fail (DecErr.illegalRdbHeader (trimCRLF ln))
        else
          match readFull strLen.toNat r with
          | none => HRes.fail DecErr.transport
          | some (body, rest) => HRes.ok [Payload.data (Reply.bulk (some body))] rest

/-- One iteration of the decode loop of parse0: more payloads and a
remaining stream, the final payloads before the channel closes, or a
recovered panic that ends the goroutine with nothing delivered by this
iteration and the channel left open. -/
inductive Step
  | more (out : List Payload) (rest : Bytes)
  | done (out : List Payload)
  | crashed
deriving DecidableEq, Repr

/-- The dispatch switch of parse0 on the first byte of the stripped line:
status (with the FULLRESYNC raw bulk sub mode), error, integer, bulk
header, array header, and the inline fallback that splits the whole line
on spaces.  The empty case mirrors the Go panic on indexing an empty
slice, which ends the goroutine without closing the channel; the line
shape guard in parse0 makes it unreachable. -/
def dispatchLine (stripped : Bytes) (r1 : Bytes) : Step :=
  match stripped with
  | [] => Step.done []
  | c :: content =>
    if c = 43 then
      if hasPfx fullresyncBytes content then
        match parseRDBBulkString r1 with
        | HRes.ok out rest => Step.more (Payload.data (Reply.status content) :: out) rest
        | HRes.fail e =>
            Step.done [Payload.data (Reply.status content), Payload.err e]
        | HRes.panicked => Step.crashed
      else Step.more [Payload.data (Reply.status content)] r1
    else if c = 45 then
      Step.more [Payload.data (Reply.err content)] r1
    else if c = 58 then
      match parseIntGo 64 content with
      | some v => Step.more [Payload.data (Reply.int v)] r1
      | none => Step.more [Payload.err (DecErr.protocol (msgIllegalNumber ++ content))] r1
    else if c = 36 then
      match parseBulkString (c :: content) r1 with
      | HRes.ok out rest => Step.more out rest
      | HRes.fail e => Step.done [Payload.err e]
      | HRes.panicked => Step.crashed
    else if c = 42 then
      match parseArray (c :: content) r1 with
      | HRes.ok out rest => Step.more out rest
      | HRes.fail e => Step.done [Payload.err e]
      | HRes.panicked => Step.crashed
    else
      Step.more [Payload.data (Reply.multiBulk ((splitOnSpace (c :: content)).map some))] r1

/-- One full iteration of the decode loop: read a line (a read failure
delivers one transport error payload and closes the channel), silently
skip a line of length at most two or whose second to last byte is not a
carriage return, otherwise strip the terminator and dispatch. -/
def parse0Step (s : Bytes) : Step :=
  match splitAtNL s with
  | none => Step.done [Payload.err DecErr.transport]
  | some (ln, r1) =>
    if skipLine ln then Step.more [] r1
    else dispatchLine (trimCRLF ln) r1

/-- The decode loop with explicit fuel; every iteration consumes at least
one byte of the stream, so stream length plus one is always enough. -/
def parse0Fuel : Nat → Bytes → List Payload
  | 0, _ => []
  | fuel + 1, s =>
    match parse0Step s with
    | Step.done out => out
    | Step.crashed => []
    | Step.more out rest => out ++ parse0Fuel fuel rest

/-- parse0: the complete sequence of payloads delivered on the output
channel for a finite input stream, in delivery order; the list ends when
the channel is closed or when the recovered panic ends the goroutine
(parse0Closed tells the two apart). -/
def parse0 (s : Bytes) : List Payload := parse0Fuel (s.length + 1) s

/-- Whether the decode loop ends by closing the output channel (true) or
by the recovered panic that leaves it open forever (false); fuelled like
parse0Fuel. -/
def parse0ClosedFuel : Nat → Bytes → Bool
  | 0, _ => false
  | fuel + 1, s =>
    match parse0Step s with
    | Step.done _ => true
    | Step.crashed => false
    | Step.more _ rest => parse0ClosedFuel fuel rest

/-- parse0Closed: true when decoding the stream ends with close of the
output channel, false when the goroutine dies with the channel open. -/
def parse0Closed (s : Bytes) : Bool := parse0ClosedFuel (s.length + 1) s

/-- Classification produced by Try2ErrorReply from serialized reply
bytes: the empty reply error, an error carrying the bytes after the
leading minus byte, or no error. -/
inductive TryErr
  | emptyReply
  | errText (t : Bytes)
  | noError
deriving DecidableEq, Repr

/-- The body of Try2ErrorReply on the serialized bytes: empty bytes give
the empty reply error, a leading minus byte gives an error carrying the
remaining bytes, anything else is not an error reply. -/
def try2ErrorBytes : Bytes → TryErr
  | [] => TryErr.emptyReply
  | c :: rest => if c ≠ 45 then TryErr.noError else TryErr.errText rest

/-- Try2ErrorReply: serialize the reply and classify the bytes. -/
def Try2ErrorReply (r : Reply) : TryErr := try2ErrorBytes (replyToBytes r)

/-- The malformed element header condition inside the parseArray loop:
the raw line fails the shape guard (too short, second to last byte not a
carriage return, or first byte not a dollar sign) or its declared sub
length fails to parse or is below minus one. -/
def badElemHeader (ln : Bytes) : Bool :=
  elemHeaderBadShape ln ||
  match parseIntGo 64 ((ln.take (ln.length - 2)).drop 1) with
  | none => true
  | some v => decide (v < -1)

/-! Basic lemmas about the stream primitives. -/

theorem splitAtNL_length : ∀ {s l r : Bytes}, splitAtNL s = some (l, r) → r.length < s.length := by
  intro s
  induction s with
  | nil => intro l r h; simp [splitAtNL] at h
  | cons c rest ih =>
    intro l r h
    simp only [splitAtNL] at h
    by_cases hc : c = 10
    · rw [if_pos hc] at h
      cases h
      simp
    · rw [if_neg hc] at h
      cases hsp : splitAtNL rest with
      | none => rw [hsp] at h; cases h
      | some p =>
        obtain ⟨l2, r2⟩ := p
        rw [hsp] at h
        cases h
        have := ih hsp
        simp
        omega

theorem splitAtNL_cons10 (l r : Bytes) (h : 10 ∉ l) :
    splitAtNL (l ++ 10 :: r) = some (l ++ [10], r) := by
  induction l with
  | nil => simp [splitAtNL]
  | cons c cs ih =>
    have hc : c ≠ 10 := by
      intro hh
      exact h (by simp [hh])
    have h10 : (10 : Nat) ∉ cs := fun hm => h (List.mem_cons_of_mem _ hm)
    simp only [List.cons_append, splitAtNL, if_neg hc, List.append_eq, ih h10]

theorem trimCRLF_append (l : Bytes) : trimCRLF (l ++ [13, 10]) = l := by
  have hlen : (l ++ [13, 10]).length - 2 = l.length := by simp
  unfold trimCRLF
  rw [hlen, List.drop_left, if_pos rfl, List.take_left]

theorem trimCRLF_ne_nil (l : Bytes) (h : 2 < l.length) : trimCRLF l ≠ [] := by
  unfold trimCRLF
  split
  · intro hn
    have := congrArg List.length hn
    simp [List.length_take] at this
    omega
  · intro hn
    rw [hn] at h
    simp at h

theorem skipLine_iff (ln : Bytes) :
    skipLine ln = false ↔ (2 < ln.length ∧ ln[ln.length - 2]? = some 13) := by
  simp only [skipLine, decide_eq_false_iff_not, not_or, not_le, ne_eq, not_not]

theorem skipLine_false (strp : Bytes) (hne : strp ≠ []) : skipLine (strp ++ [13, 10]) = false := by
  rw [skipLine_iff]
  have hl : (strp ++ [13, 10]).length - 2 = strp.length := by simp
  constructor
  · have : strp.length ≠ 0 := fun hz => hne (List.eq_nil_of_length_eq_zero hz)
    simp only [List.length_append, List.length_cons, List.length_nil]
    omega
  · rw [hl, List.getElem?_append_right (le_refl _)]
    simp

theorem readFull_eq_some {n : Nat} {s b rest : Bytes} :
    readFull n s = some (b, rest) ↔ (n ≤ s.length ∧ b = s.take n ∧ rest = s.drop n) := by
  unfold readFull
  split
  · constructor
    · intro h
      cases h
      exact ⟨by assumption, rfl, rfl⟩
    · rintro ⟨_, rfl, rfl⟩
      rfl
  · constructor
    · intro h
      cases h
    · rintro ⟨hle, _, _⟩
      omega

theorem hasPfx_append (p x : Bytes) : hasPfx p (p ++ x) = true := by
  induction p with
  | nil => simp [hasPfx]
  | cons c cs ih => simp [hasPfx, ih]

/-! Every helper leaves a remaining stream no longer than its input. -/

theorem parseBulkString_ok_length {h s : Bytes} {out : List Payload} {rest : Bytes}
    (hres : parseBulkString h s = HRes.ok out rest) : rest.length ≤ s.length := by
  unfold parseBulkString at hres
  split at hres
  · cases hres; exact le_refl _
  · split at hres
    · cases hres; exact le_refl _
    · split at hres
      · cases hres; exact le_refl _
      · split at hres
        · cases hres
        · split at hres
          · cases hres
          · next body rest2 heq =>
              cases hres
              obtain ⟨_, _, hr⟩ := readFull_eq_some.mp heq
              subst hr
              simp

theorem parseArrayLoop_ok_length :
    ∀ (rem : Nat) (acc : List (Option Bytes)) (s : Bytes) (out : List Payload) (rest : Bytes),
      parseArrayLoop rem acc s = HRes.ok out rest → rest.length ≤ s.length := by
  intro rem
  induction rem with
  | zero =>
    intro acc s out rest h
    unfold parseArrayLoop at h
    cases h
    exact le_refl _
  | succ m ih =>
    intro acc s out rest h
    unfold parseArrayLoop at h
    split at h
    · cases h
    · next ln r heq =>
      have hr : r.length < s.length := splitAtNL_length heq
      split at h
      · cases h; omega
      · split at h
        · cases h; omega
        · split at h
          · cases h; omega
          · split at h
            · have := ih _ _ _ _ h
              omega
            · split at h
              · cases h
              · split at h
                · cases h
                · next body rest2 heq2 =>
                    have h1 := ih _ _ _ _ h
                    obtain ⟨_, _, hr2⟩ := readFull_eq_some.mp heq2
                    subst hr2
                    simp at h1
                    omega

theorem parseArray_ok_length {h s : Bytes} {out : List Payload} {rest : Bytes}
    (hres : parseArray h s = HRes.ok out rest) : rest.length ≤ s.length := by
  unfold parseArray at hres
  split at hres
  · cases hres; exact le_refl _
  · split at hres
    · cases hres; exact le_refl _
    · split at hres
      · cases hres; exact le_refl _
      · exact parseArrayLoop_ok_length _ _ _ _ _ hres

theorem parseRDBBulkString_ok_length {s : Bytes} {out : List Payload} {rest : Bytes}
    (hres : parseRDBBulkString s = HRes.ok out rest) : rest.length ≤ s.length := by
  unfold parseRDBBulkString at hres
  split at hres
  · cases hres
  · next ln r heq =>
    have hr : r.length < s.length := splitAtNL_length heq
    split at hres
    · cases hres
    · split at hres
      · cases hres
      · split at hres
        · cases hres
        · split at hres
          · cases hres
          · next body rest2 heq2 =>
              cases hres
              obtain ⟨_, _, hr2⟩ := readFull_eq_some.mp heq2
              subst hr2
              simp
              omega

theorem dispatchLine_more_length {strp r1 : Bytes} {out : List Payload} {rest : Bytes}
    (h : dispatchLine strp r1 = Step.more out rest) : rest.length ≤ r1.length := by
  unfold dispatchLine at h
  split at h
  · cases h
  · split at h
    · split at h
      · split at h
        · next heq =>
            cases h
            exact parseRDBBulkString_ok_length heq
        · cases h
        · cases h
      · cases h; exact le_refl _
    · split at h
      · cases h; exact le_refl _
      · split at h
        · split at h
          · cases h; exact le_refl _
          · cases h; exact le_refl _
        · split at h
          · split at h
            · next heq => cases h; exact parseBulkString_ok_length heq
            · cases h
            · cases h
          · split at h
            · split at h
              · next heq => cases h; exact parseArray_ok_length heq
              · cases h
              · cases h
            · cases h; exact le_refl _

theorem parse0Step_more_length {s : Bytes} {out : List Payload} {rest : Bytes}
    (h : parse0Step s = Step.more out rest) : rest.length < s.length := by
  unfold parse0Step at h
  split at h
  · cases h
  · next ln r1 heq =>
    have hr : r1.length < s.length := splitAtNL_length heq
    split at h
    · cases h; exact hr
    · have := dispatchLine_more_length h
      omega

theorem parse0Fuel_succ (f : Nat) (s : Bytes) :
    parse0Fuel (f + 1) s =
      match parse0Step s with
      | Step.done out => out
      | Step.crashed => []
      | Step.more out rest => out ++ parse0Fuel f rest := rfl

theorem parse0Fuel_congr :
    ∀ (f g : Nat) (s : Bytes), s.length < f → s.length < g →
      parse0Fuel f s = parse0Fuel g s := by
  intro f
  induction f with
  | zero => intro g s hf; omega
  | succ f2 ih =>
    intro g s hf hg
    cases g with
    | zero => omega
    | succ g2 =>
      rw [parse0Fuel_succ, parse0Fuel_succ]
      cases hstep : parse0Step s with
      | done out => rfl
      | crashed => rfl
      | more out rest =>
        have hlen := parse0Step_more_length hstep
        show out ++ parse0Fuel f2 rest = out ++ parse0Fuel g2 rest
        rw [ih g2 rest (by omega) (by omega)]

theorem parse0_unfold (s : Bytes) :
    parse0 s =
      match parse0Step s with
      | Step.done out => out
      | Step.crashed => []
      | Step.more out rest => out ++ parse0 rest := by
  cases hstep : parse0Step s with
  | done out =>
    unfold parse0
    rw [parse0Fuel_succ, hstep]
  | crashed =>
    unfold parse0
    rw [parse0Fuel_succ, hstep]
  | more out rest =>
    have hlen := parse0Step_more_length hstep
    unfold parse0
    rw [parse0Fuel_succ, hstep]
    show out ++ parse0Fuel s.length rest = out ++ parse0Fuel (rest.length + 1) rest
    rw [parse0Fuel_congr s.length (rest.length + 1) rest (by omega) (by omega)]

theorem parse0ClosedFuel_succ (f : Nat) (s : Bytes) :
    parse0ClosedFuel (f + 1) s =
      match parse0Step s with
      | Step.done _ => true
      | Step.crashed => false
      | Step.more _ rest => parse0ClosedFuel f rest := rfl

theorem parse0ClosedFuel_congr :
    ∀ (f g : Nat) (s : Bytes), s.length < f → s.length < g →
      parse0ClosedFuel f s = parse0ClosedFuel g s := by
  intro f
  induction f with
  | zero => intro g s hf; omega
  | succ f2 ih =>
    intro g s hf hg
    cases g with
    | zero => omega
    | succ g2 =>
      rw [parse0ClosedFuel_succ, parse0ClosedFuel_succ]
      cases hstep : parse0Step s with
      | done out => rfl
      | crashed => rfl
      | more out rest =>
        have hlen := parse0Step_more_length hstep
        show parse0ClosedFuel f2 rest = parse0ClosedFuel g2 rest
        rw [ih g2 rest (by omega) (by omega)]

theorem parse0Closed_unfold (s : Bytes) :
    parse0Closed s =
      match parse0Step s with
      | Step.done _ => true
      | Step.crashed => false
      | Step.more _ rest => parse0Closed rest := by
  cases hstep : parse0Step s with
  | done out =>
    unfold parse0Closed
    rw [parse0ClosedFuel_succ, hstep]
  | crashed =>
    unfold parse0Closed
    rw [parse0ClosedFuel_succ, hstep]
  | more out rest =>
    have hlen := parse0Step_more_length hstep
    unfold parse0Closed
    rw [parse0ClosedFuel_succ, hstep]
    show parse0ClosedFuel s.length rest = parse0ClosedFuel (rest.length + 1) rest
    rw [parse0ClosedFuel_congr s.length (rest.length + 1) rest (by omega) (by omega)]

theorem parse0Step_line (strp rest : Bytes) (hne : strp ≠ []) (h10 : 10 ∉ strp) :
    parse0Step (strp ++ 13 :: 10 :: rest) = dispatchLine strp rest := by
  have h13 : (10 : Nat) ∉ strp ++ [13] := by
    intro hm
    rcases List.mem_append.mp hm with hm1 | hm2
    · exact h10 hm1
    · simp at hm2
  have hsp : splitAtNL (strp ++ 13 :: 10 :: rest) = some (strp ++ [13, 10], rest) := by
    have := splitAtNL_cons10 (strp ++ [13]) rest h13
    simpa [List.append_assoc] using this
  simp only [parse0Step, hsp, skipLine_false strp hne, trimCRLF_append]
  rfl

/-! Error classification of each helper result. -/

theorem parseBulkString_fail_eq {h s : Bytes} {e : DecErr}
    (hres : parseBulkString h s = HRes.fail e) : e = DecErr.transport := by
  unfold parseBulkString at hres
  split at hres
  · cases hres
  · split at hres
    · cases hres
    · split at hres
      · cases hres
      · split at hres
        · cases hres
        · split at hres
          · cases hres; rfl
          · cases hres

theorem parseBulkString_ok_noTerm {h s : Bytes} {out : List Payload} {rest : Bytes}
    (hres : parseBulkString h s = HRes.ok out rest) :
    ∀ p ∈ out, p.isTermErr = false := by
  unfold parseBulkString at hres
  split at hres
  · cases hres; simp [Payload.isTermErr, DecErr.isTerminal]
  · split at hres
    · cases hres; simp [Payload.isTermErr, DecErr.isTerminal]
    · split at hres
      · cases hres; simp [Payload.isTermErr]
      · split at hres
        · cases hres
        · split at hres
          · cases hres
          · cases hres; simp [Payload.isTermErr]

theorem parseArrayLoop_fail_eq :
    ∀ (rem : Nat) (acc : List (Option Bytes)) (s : Bytes) (e : DecErr),
      parseArrayLoop rem acc s = HRes.fail e → e = DecErr.transport := by
  intro rem
  induction rem with
  | zero =>
    intro acc s e h
    unfold parseArrayLoop at h
    cases h
  | succ m ih =>
    intro acc s e h
    unfold parseArrayLoop at h
    split at h
    · cases h; rfl
    · split at h
      · cases h
      · split at h
        · cases h
        · split at h
          · cases h
          · split at h
            · exact ih _ _ _ h
            · split at h
              · cases h
              · split at h
                · cases h; rfl
                · exact ih _ _ _ h

theorem parseArrayLoop_ok_noTerm :
    ∀ (rem : Nat) (acc : List (Option Bytes)) (s : Bytes) (out : List Payload) (rest : Bytes),
      parseArrayLoop rem acc s = HRes.ok out rest → ∀ p ∈ out, p.isTermErr = false := by
  intro rem
  induction rem with
  | zero =>
    intro acc s out rest h
    unfold parseArrayLoop at h
    cases h
    simp [Payload.isTermErr]
  | succ m ih =>
    intro acc s out rest h
    unfold parseArrayLoop at h
    split at h
    · cases h
    · split at h
      · cases h; simp [Payload.isTermErr, DecErr.isTerminal]
      · split at h
        · cases h; simp [Payload.isTermErr, DecErr.isTerminal]
        · split at h
          · cases h; simp [Payload.isTermErr, DecErr.isTerminal]
          · split at h
            · exact ih _ _ _ _ h
            · split at h
              · cases h
              · split at h
                · cases h
                · exact ih _ _ _ _ h

theorem parseArray_fail_eq {h s : Bytes} {e : DecErr}
    (hres : parseArray h s = HRes.fail e) : e = DecErr.transport := by
  unfold parseArray at hres
  split at hres
  · cases hres
  · split at hres
    · cases hres
    · split at hres
      · cases hres
      · exact parseArrayLoop_fail_eq _ _ _ _ hres

theorem parseArray_ok_noTerm {h s : Bytes} {out : List Payload} {rest : Bytes}
    (hres : parseArray h s = HRes.ok out rest) :
    ∀ p ∈ out, p.isTermErr = false := by
  unfold parseArray at hres
  split at hres
  · cases hres; simp [Payload.isTermErr, DecErr.isTerminal]
  · split at hres
    · cases hres; simp [Payload.isTermErr, DecErr.isTerminal]
    · split at hres
      · cases hres; simp [Payload.isTermErr]
      · exact parseArrayLoop_ok_noTerm _ _ _ _ _ hres

theorem parseRDBBulkString_fail_terminal {s : Bytes} {e : DecErr}
    (hres : parseRDBBulkString s = HRes.fail e) : e.isTerminal = true := by
  unfold parseRDBBulkString at hres
  split at hres
  · cases hres; rfl
  · split at hres
    · cases hres; rfl
    · split at hres
      · cases hres; rfl
      · split at hres
        · cases hres; rfl
        · split at hres
          · cases hres; rfl
          · cases hres

theorem parseRDBBulkString_ok_shape {s : Bytes} {out : List Payload} {rest : Bytes}
    (hres : parseRDBBulkString s = HRes.ok out rest) :
    ∃ b, out = [Payload.data (Reply.bulk (some b))] := by
  unfold parseRDBBulkString at hres
  split at hres
  · cases hres
  · split at hres
    · cases hres
    · split at hres
      · cases hres
      · split at hres
        · cases hres
        · split at hres
          · cases hres
          · next body rest2 heq =>
              cases hres
              exact ⟨body, rfl⟩

theorem dispatchLine_done_shape {strp r1 : Bytes} {out : List Payload}
    (hne : strp ≠ []) (h : dispatchLine strp r1 = Step.done out) :
    ∃ pre e, out = pre ++ [Payload.err e] ∧ e.isTerminal = true ∧
      ∀ p ∈ pre, p.isTermErr = false := by
  unfold dispatchLine at h
  split at h
  · exact absurd rfl hne
  · next c content =>
    split at h
    · split at h
      · split at h
        · cases h
        · next e heq =>
            cases h
            exact ⟨[Payload.data (Reply.status content)], e, rfl,
              parseRDBBulkString_fail_terminal heq, by simp [Payload.isTermErr]⟩
        · cases h
      · cases h
    · split at h
      · cases h
      · split at h
        · split at h
          · cases h
          · cases h
        · split at h
          · split at h
            · cases h
            · next e heq =>
                cases h
                exact ⟨[], e, rfl, by rw [parseBulkString_fail_eq heq]; rfl, by simp⟩
            · cases h
          · split at h
            · split at h
              · cases h
              · next e heq =>
                  cases h
                  exact ⟨[], e, rfl, by rw [parseArray_fail_eq heq]; rfl, by simp⟩
              · cases h
            · cases h

theorem dispatchLine_more_noTerm {strp r1 : Bytes} {out : List Payload} {rest : Bytes}
    (h : dispatchLine strp r1 = Step.more out rest) :
    ∀ p ∈ out, p.isTermErr = false := by
  unfold dispatchLine at h
  split at h
  · cases h
  · split at h
    · split at h
      · split at h
        · next heq =>
            cases h
            obtain ⟨b, hb⟩ := parseRDBBulkString_ok_shape heq
            subst hb
            simp [Payload.isTermErr]
        · cases h
        · cases h
      · cases h; simp [Payload.isTermErr]
    · split at h
      · cases h; simp [Payload.isTermErr]
      · split at h
        · split at h
          · cases h; simp [Payload.isTermErr]
          · cases h; simp [Payload.isTermErr, DecErr.isTerminal]
        · split at h
          · split at h
            · next heq => cases h; exact parseBulkString_ok_noTerm heq
            · cases h
            · cases h
          · split at h
            · split at h
              · next heq => cases h; exact parseArray_ok_noTerm heq
              · cases h
              · cases h
            · cases h; simp [Payload.isTermErr]

theorem parse0Step_done_shape {s : Bytes} {out : List Payload}
    (h : parse0Step s = Step.done out) :
    ∃ pre e, out = pre ++ [Payload.err e] ∧ e.isTerminal = true ∧
      ∀ p ∈ pre, p.isTermErr = false := by
  unfold parse0Step at h
  split at h
  · cases h
    exact ⟨[], DecErr.transport, rfl, rfl, by simp⟩
  · next ln r1 heq =>
    split at h
    · cases h
    · next hguard =>
      have hf : skipLine ln = false := by
        revert hguard
        cases skipLine ln <;> simp
      have hlen : 2 < ln.length := ((skipLine_iff ln).mp hf).1
      exact dispatchLine_done_shape (trimCRLF_ne_nil ln hlen) h

theorem parse0Step_more_noTerm {s : Bytes} {out : List Payload} {rest : Bytes}
    (h : parse0Step s = Step.more out rest) :
    ∀ p ∈ out, p.isTermErr = false := by
  unfold parse0Step at h
  split at h
  · cases h
  · split at h
    · cases h; simp
    · exact dispatchLine_more_noTerm h

theorem parse0_closed_ends_terminal : ∀ s : Bytes, parse0Closed s = true →
    ∃ pre e, parse0 s = pre ++ [Payload.err e] ∧ e.isTerminal = true ∧
      ∀ p ∈ pre, p.isTermErr = false := by
  have H : ∀ (n : Nat) (s : Bytes), s.length = n → parse0Closed s = true →
      ∃ pre e, parse0 s = pre ++ [Payload.err e] ∧ e.isTerminal = true ∧
        ∀ p ∈ pre, p.isTermErr = false := by
    intro n
    induction n using Nat.strong_induction_on with
    | _ n ih =>
      intro s hs hc
      rw [parse0Closed_unfold] at hc
      rw [parse0_unfold]
      cases hstep : parse0Step s with
      | done out => exact parse0Step_done_shape hstep
      | crashed =>
        rw [hstep] at hc
        have hc2 : false = true := hc
        cases hc2
      | more out rest =>
        rw [hstep] at hc
        have hc2 : parse0Closed rest = true := hc
        have hlen := parse0Step_more_length hstep
        obtain ⟨pre, e, hpe, hterm, hnt⟩ := ih rest.length (by omega) rest rfl hc2
        refine ⟨out ++ pre, e, ?_, hterm, ?_⟩
        · show out ++ parse0 rest = out ++ pre ++ [Payload.err e]
          rw [hpe, List.append_assoc]
        · intro p hp
          rcases List.mem_append.mp hp with h1 | h2
          · exact parse0Step_more_noTerm hstep p h1
          · exact hnt p h2
  intro s
  exact H s.length s rfl

theorem parse0_not_closed_noTerm : ∀ s : Bytes, parse0Closed s = false →
    ∀ p ∈ parse0 s, p.isTermErr = false := by
  have H : ∀ (n : Nat) (s : Bytes), s.length = n → parse0Closed s = false →
      ∀ p ∈ parse0 s, p.isTermErr = false := by
    intro n
    induction n using Nat.strong_induction_on with
    | _ n ih =>
      intro s hs hc
      rw [parse0Closed_unfold] at hc
      rw [parse0_unfold]
      cases hstep : parse0Step s with
      | done out =>
        rw [hstep] at hc
        have hc2 : true = false := hc
        cases hc2
      | crashed =>
        intro p hp
        exact absurd hp (List.not_mem_nil p)
      | more out rest =>
        rw [hstep] at hc
        have hc2 : parse0Closed rest = false := hc
        have hlen := parse0Step_more_length hstep
        intro p hp
        rcases List.mem_append.mp hp with h1 | h2
        · exact parse0Step_more_noTerm hstep p h1
        · exact ih rest.length (by omega) rest rfl hc2 p h2
  intro s
  exact H s.length s rfl

/-! The raw bulk replication read on a well formed stream. -/

theorem parseRDB_ok_general (c : Nat) (ds body tail : Bytes) (n : Nat)
    (hc : c ≠ 10) (hds : 10 ∉ ds) (hn : parseIntGo 64 ds = some (n : Int)) (hpos : 0 < n)
    (hb : body.length = n) :
    parseRDBBulkString ((c :: ds) ++ 13 :: 10 :: (body ++ tail)) =
      HRes.ok [Payload.data (Reply.bulk (some body))] tail := by
  have h10 : (10 : Nat) ∉ (c :: ds) ++ [13] := by
    intro hm
    rcases List.mem_append.mp hm with h1 | h2
    · rcases List.mem_cons.mp h1 with h3 | h4
      · exact hc h3.symm
      · exact hds h4
    · simp at h2
  have hsp : splitAtNL ((c :: ds) ++ 13 :: 10 :: (body ++ tail)) =
      some ((c :: ds) ++ [13, 10], body ++ tail) := by
    have := splitAtNL_cons10 ((c :: ds) ++ [13]) (body ++ tail) h10
    simpa [List.append_assoc] using this
  have htrim : trimCRLF ((c :: ds) ++ [13, 10]) = c :: ds := trimCRLF_append _
  have hrf : readFull ((n : Int)).toNat (body ++ tail) = some (body, tail) := by
    rw [readFull_eq_some]
    refine ⟨?_, ?_, ?_⟩
    · rw [Int.toNat_natCast, ← hb]
      simp
    · rw [Int.toNat_natCast, ← hb, List.take_left]
    · rw [Int.toNat_natCast, ← hb, List.drop_left]
  have hle : ¬((n : Int) ≤ 0) := by omega
  simp only [parseRDBBulkString, hsp, htrim, List.drop_succ_cons, List.drop_zero, hn, hrf,
    List.length_cons, Nat.succ_ne_zero, if_false, hle, if_neg hle]

/-! The raw bulk replication read fails terminally on a nonpositive or
unparsable declared length. -/

theorem parseRDB_bad_general (c : Nat) (ds junk : Bytes)
    (hc : c ≠ 10) (hds : 10 ∉ ds)
    (hbad : parseIntGo 64 ds = none ∨ ∃ v : Int, parseIntGo 64 ds = some v ∧ v ≤ 0) :
    parseRDBBulkString ((c :: ds) ++ 13 :: 10 :: junk) =
      HRes.fail (DecErr.illegalRdbHeader (c :: ds)) := by
  have h10 : (10 : Nat) ∉ (c :: ds) ++ [13] := by
    intro hm
    rcases List.mem_append.mp hm with h1 | h2
    · rcases List.mem_cons.mp h1 with h3 | h4
      · exact hc h3.symm
      · exact hds h4
    · simp at h2
  have hsp : splitAtNL ((c :: ds) ++ 13 :: 10 :: junk) =
      some ((c :: ds) ++ [13, 10], junk) := by
    have := splitAtNL_cons10 ((c :: ds) ++ [13]) junk h10
    simpa [List.append_assoc] using this
  have htrim : trimCRLF ((c :: ds) ++ [13, 10]) = c :: ds := trimCRLF_append _
  rcases hbad with hnone | ⟨v, hv, hvle⟩
  · simp only [parseRDBBulkString, hsp, htrim, List.drop_succ_cons, List.drop_zero, hnone,
      List.length_cons, Nat.succ_ne_zero, if_false]
  · simp only [parseRDBBulkString, hsp, htrim, List.drop_succ_cons, List.drop_zero, hv,
      List.length_cons, Nat.succ_ne_zero, if_false, if_pos hvle]

/-! The write pass of MultiBulkReply.ToBytes produces exactly the byte
count computed by its measuring pass. -/

theorem mbBufLen_aux : ∀ (args : List (Option Bytes)) (a : Nat),
    args.foldl
      (fun bufLen arg =>
        match arg with
        | none => bufLen + 3 + 2
        | some b => bufLen + 1 + (natDigits b.length).length + 2 + b.length + 2) a
    = a + (args.map bulkElemBytes).flatten.length := by
  intro args
  induction args with
  | nil => intro a; simp
  | cons x xs ih =>
    intro a
    cases x with
    | none =>
      rw [List.foldl_cons, ih]
      simp [bulkElemBytes, crlf]
      omega
    | some b =>
      rw [List.foldl_cons, ih]
      simp [bulkElemBytes, crlf]
      omega

/-! Arithmetic facts about the int64 wrap and the parsed range. -/

theorem wrapInt64_eq_self {v : Int} (h1 : -(2 : Int) ^ 63 ≤ v) (h2 : v ≤ 2 ^ 63 - 1) :
    wrapInt64 v = v := by
  unfold wrapInt64
  have e1 : (2 : Int) ^ 63 = 9223372036854775808 := by norm_num
  have e2 : (2 : Int) ^ 64 = 18446744073709551616 := by norm_num
  rw [e1, e2]
  rw [e1] at h1 h2
  omega

theorem wrapInt64_neg {v : Int} (h1 : (2 : Int) ^ 63 ≤ v) (h2 : v ≤ 2 ^ 63 + 1) :
    wrapInt64 v < 0 := by
  unfold wrapInt64
  have e1 : (2 : Int) ^ 63 = 9223372036854775808 := by norm_num
  have e2 : (2 : Int) ^ 64 = 18446744073709551616 := by norm_num
  rw [e1, e2]
  rw [e1] at h1 h2
  omega

theorem parseIntGo_range {bits : Nat} {s : Bytes} {v : Int}
    (h : parseIntGo bits s = some v) :
    -(2 : Int) ^ (bits - 1) ≤ v ∧ v ≤ 2 ^ (bits - 1) - 1 := by
  cases s with
  | nil => simp [parseIntGo] at h
  | cons c rest =>
    cases hsn : ((if c = 45 ∨ c = 43 then rest else c :: rest) : Bytes).isEmpty with
    | true => simp [parseIntGo, hsn] at h
    | false =>
      cases hdv : digitsValAux (if c = 45 ∨ c = 43 then rest else c :: rest) 0 with
      | none => simp [parseIntGo, hsn, hdv] at h
      | some m =>
        by_cases hrange : -(2 : Int) ^ (bits - 1) ≤ (if c = 45 then -(m : Int) else (m : Int)) ∧
            (if c = 45 then -(m : Int) else (m : Int)) ≤ (2 : Int) ^ (bits - 1) - 1
        · have h2 : some (if c = 45 then -(m : Int) else (m : Int)) = some v := by
            rw [← h]
            simp [parseIntGo, hsn, hdv, hrange]
          cases h2
          exact hrange
        · simp [parseIntGo, hsn, hdv, hrange] at h

/-! Claim theorems. -/

/-- C1: the claim states that for an array frame with declared count n at
least one whose nested lines are all well formed bulk headers, the
decoder emits one MultiBulk with exactly the n parsed elements.  The code
pre sizes the element slice to n (make with length n yields n nil
elements) and then appends, so on the fully well formed two element frame
it emits a MultiBulk with four elements: two nil placeholders followed by
the two parsed elements.  This theorem evaluates the decoder at that
frame and records that the emitted element list is not the two parsed
elements. -/
theorem C1_parseArray_prealloc_eval :
    parse0 (ascii "*2" ++ crlf ++ ascii "$3" ++ crlf ++ ascii "foo" ++ crlf ++
        ascii "$3" ++ crlf ++ ascii "bar" ++ crlf) =
      [Payload.data (Reply.multiBulk [none, none, some (ascii "foo"), some (ascii "bar")]),
       Payload.err DecErr.transport] ∧
    Reply.multiBulk [none, none, some (ascii "foo"), some (ascii "bar")] ≠
      Reply.multiBulk [some (ascii "foo"), some (ascii "bar")] := by
  exact ⟨by decide, by decide⟩

/-- C4: the claim states that serializing the decoded value of every well
formed literal frame reproduces the frame, with the replication raw bulk
frame the sole exception.  Because of the pre sized slice plus append bug
in parseArray, a one element array frame decodes to a MultiBulk with an
extra nil element, whose serialization differs from the original frame.
This theorem evaluates decode then serialize at that frame. -/
theorem C4_roundTrip_eval :
    parse0 (ascii "*1" ++ crlf ++ ascii "$1" ++ crlf ++ ascii "a" ++ crlf) =
      [Payload.data (Reply.multiBulk [none, some (ascii "a")]), Payload.err DecErr.transport] ∧
    replyToBytes (Reply.multiBulk [none, some (ascii "a")]) ≠
      ascii "*1" ++ crlf ++ ascii "$1" ++ crlf ++ ascii "a" ++ crlf := by
  exact ⟨by decide, by decide⟩

/-- C5: for every MultiBulk value, the write pass of ToBytes produces the
star byte, the decimal count, the terminator and each element serialized
as a bulk (nil elements as the null bulk frame), and the total serialized
byte length equals exactly the single pass buffer length formula used to
pre allocate the output buffer. -/
theorem C5_multiBulk_length (args : List (Option Bytes)) :
    replyToBytes (Reply.multiBulk args) =
      [42] ++ natDigits args.length ++ crlf ++ (args.map bulkElemBytes).flatten ∧
    (replyToBytes (Reply.multiBulk args)).length = mbBufLen args := by
  refine ⟨rfl, ?_⟩
  unfold replyToBytes mbBufLen
  rw [mbBufLen_aux]
  simp [crlf]
  omega

/-- C6 counterexample: on a bulk header declaring length two to the 63
minus two, the int64 computation of length plus two wraps negative and
the slice allocation panics; the recovered goroutine returns without
closing the channel, so nothing at all is delivered and no terminal
error payload is ever the last delivered item for this stream,
contradicting the claim that exactly one terminal error payload is
always the last item delivered before closure. -/
theorem C6_counterexample :
    parse0 (ascii "$9223372036854775806" ++ crlf) = [] ∧
    parse0Closed (ascii "$9223372036854775806" ++ crlf) = false := by
  exact ⟨by decide, by decide⟩

/-- C6 amended: whenever decoding ends by closing the output channel,
the delivered sequence ends with exactly one terminal error payload and
no terminal error payload occurs earlier (payloads after closure cannot
exist in the delivered sequence); when decoding instead ends by the
recovered panic on a wrapped bulk length, the channel stays open and no
terminal error payload is ever delivered; a transport failure in the
middle of a bulk frame delivers exactly one terminal error payload and
closes the channel. -/
theorem C6_amended_terminal_last :
    (∀ s : Bytes, parse0Closed s = true →
      ∃ pre e, parse0 s = pre ++ [Payload.err e] ∧ e.isTerminal = true ∧
        ∀ p ∈ pre, p.isTermErr = false) ∧
    (∀ s : Bytes, parse0Closed s = false → ∀ p ∈ parse0 s, p.isTermErr = false) ∧
    parse0 (ascii "$10" ++ crlf ++ ascii "abc") = [Payload.err DecErr.transport] ∧
    parse0Closed (ascii "$10" ++ crlf ++ ascii "abc") = true := by
  exact ⟨parse0_closed_ends_terminal, parse0_not_closed_noTerm, by decide, by decide⟩

/-- Witness for the amended C6 at a concrete stream that closes. -/
theorem C6_amended_terminal_last_witness :
    ∃ pre e, parse0 (ascii "$10" ++ crlf ++ ascii "abc") = pre ++ [Payload.err e] ∧
      e.isTerminal = true ∧ ∀ p ∈ pre, p.isTermErr = false :=
  C6_amended_terminal_last.1 (ascii "$10" ++ crlf ++ ascii "abc") (by decide)

/-- C8: for every reply, Try2ErrorReply yields the empty reply error when
the serialization is empty, an error carrying exactly the bytes after the
leading minus byte when the first serialized byte is the minus sign, and
no error otherwise. -/
theorem C8_toError (r : Reply) :
    (replyToBytes r = [] → Try2ErrorReply r = TryErr.emptyReply) ∧
    (∀ rest, replyToBytes r = 45 :: rest → Try2ErrorReply r = TryErr.errText rest) ∧
    (∀ c rest, replyToBytes r = c :: rest → c ≠ 45 → Try2ErrorReply r = TryErr.noError) := by
  unfold Try2ErrorReply
  refine ⟨?_, ?_, ?_⟩
  · intro h
    rw [h]
    rfl
  · intro rest h
    rw [h]
    simp [try2ErrorBytes]
  · intro c rest h hc
    rw [h]
    simp [try2ErrorBytes, hc]

/-- Witness for C8 at a concrete error reply. -/
theorem C8_toError_witness :
    Try2ErrorReply (Reply.err (ascii "ERR x")) = TryErr.errText (ascii "ERR x" ++ crlf) :=
  (C8_toError (Reply.err (ascii "ERR x"))).2.1 (ascii "ERR x" ++ crlf) (by decide)

/-- C9: the replication raw bulk header line is never checked to start
with a dollar byte: for every header line whose bytes after the first
byte parse as a positive signed 64 bit integer n, the sub mode reads n
raw bytes and emits them, whatever the first byte is; a hash headed line
behaves exactly like the dollar headed one. -/
theorem C9_rdbHeader_unchecked :
    (∀ (c : Nat) (ds body tail : Bytes) (n : Nat), c ≠ 10 → 10 ∉ ds →
      parseIntGo 64 ds = some (n : Int) → 0 < n → body.length = n →
      parseRDBBulkString ((c :: ds) ++ 13 :: 10 :: (body ++ tail)) =
        HRes.ok [Payload.data (Reply.bulk (some body))] tail) ∧
    parseRDBBulkString (ascii "#5" ++ crlf ++ ascii "HELLO") =
      parseRDBBulkString (ascii "$5" ++ crlf ++ ascii "HELLO") := by
  refine ⟨?_, by decide⟩
  intro c ds body tail n hc hds hn hpos hb
  exact parseRDB_ok_general c ds body tail n hc hds hn hpos hb

/-- Witness for C9: a hash headed header line with declared length five
reads exactly the five raw bytes. -/
theorem C9_rdbHeader_unchecked_witness :
    parseRDBBulkString ((35 :: ascii "5") ++ 13 :: 10 :: (ascii "HELLO" ++ [])) =
      HRes.ok [Payload.data (Reply.bulk (some (ascii "HELLO")))] [] :=
  C9_rdbHeader_unchecked.1 35 (ascii "5") (ascii "HELLO") [] 5
    (by decide) (by decide) (by decide) (by decide) (by decide)

/-- C10: every raw line read by the decode loop that is not skipped by
the shape guard (length at most two, or second to last byte not a
carriage return) strips to a line of at least one byte, so reading its
first byte for dispatch never fails; a line failing the guard is skipped
with no payload before the terminator is stripped. -/
theorem C10_dispatch_nonempty (s ln r : Bytes) (hsp : splitAtNL s = some (ln, r)) :
    (skipLine ln = true → parse0Step s = Step.more [] r) ∧
    (skipLine ln = false →
      1 ≤ (trimCRLF ln).length ∧ ∃ c rest0, trimCRLF ln = c :: rest0) := by
  constructor
  · intro hskip
    simp only [parse0Step, hsp, hskip, if_true]
  · intro hns
    have hlen : 2 < ln.length := ((skipLine_iff ln).mp hns).1
    have hne := trimCRLF_ne_nil ln hlen
    cases htc : trimCRLF ln with
    | nil => exact absurd htc hne
    | cons c cs => exact ⟨by simp, c, cs, rfl⟩

/-- Witness for C10 at a concrete status line. -/
theorem C10_dispatch_nonempty_witness :
    1 ≤ (trimCRLF [43, 13, 10]).length ∧ ∃ c rest0, trimCRLF [43, 13, 10] = c :: rest0 :=
  (C10_dispatch_nonempty [43, 13, 10] [43, 13, 10] [] (by decide)).2 (by decide)

/-- C7 counterexample: for the parsed length two to the 63 minus two,
the claimed read of length plus two bytes never happens: the int64 sum
wraps negative, the allocation panics and the goroutine dies delivering
nothing, so the otherwise branch of the claim is false at that header. -/
theorem C7_counterexample :
    parseBulkString (36 :: ascii "9223372036854775806") (ascii "ab") = HRes.panicked ∧
    parse0 (ascii "$9223372036854775806" ++ crlf ++ ascii "ab") = [] := by
  exact ⟨by decide, by decide⟩

/-- C7 amended: for a top level bulk header, a declared length of minus
one emits the absent bulk value with the stream untouched, an unparsable
length or one below minus one emits one recoverable protocol error with
the stream untouched, and a nonnegative length n up to two to the 63
minus three reads exactly n plus two bytes, strips the trailing
terminator and emits the n payload bytes; for n of two to the 63 minus
two or minus one the int64 sum n plus two wraps negative and the slice
allocation panics, killing the goroutine with nothing emitted; the null
bulk frame and the empty bulk frame decode to distinguishable values. -/
theorem C7_amended_bulkString (content s : Bytes) :
    (parseIntGo 64 content = some (-1) →
      parseBulkString (36 :: content) s = HRes.ok [Payload.data (Reply.bulk none)] s) ∧
    (parseIntGo 64 content = none →
      parseBulkString (36 :: content) s =
        HRes.ok [Payload.err (DecErr.protocol (msgIllegalBulkHeader ++ (36 :: content)))] s) ∧
    (∀ v : Int, parseIntGo 64 content = some v → v < -1 →
      parseBulkString (36 :: content) s =
        HRes.ok [Payload.err (DecErr.protocol (msgIllegalBulkHeader ++ (36 :: content)))] s) ∧
    (∀ n : Nat, parseIntGo 64 content = some (n : Int) → n < 2 ^ 63 - 2 → n + 2 ≤ s.length →
      parseBulkString (36 :: content) s =
        HRes.ok [Payload.data (Reply.bulk (some (s.take n)))] (s.drop (n + 2))) ∧
    (∀ n : Nat, parseIntGo 64 content = some (n : Int) → 2 ^ 63 - 2 ≤ n →
      parseBulkString (36 :: content) s = HRes.panicked) ∧
    parse0 (ascii "$-1" ++ crlf) =
      [Payload.data (Reply.bulk none), Payload.err DecErr.transport] ∧
    parse0 (ascii "$0" ++ crlf ++ crlf) =
      [Payload.data (Reply.bulk (some [])), Payload.err DecErr.transport] ∧
    Reply.bulk none ≠ Reply.bulk (some []) := by
  refine ⟨?_, ?_, ?_, ?_, ?_, by decide, by decide, by decide⟩
  · intro h
    simp only [parseBulkString, List.drop_succ_cons, List.drop_zero, h]
    norm_num
    rfl
  · intro h
    simp only [parseBulkString, List.drop_succ_cons, List.drop_zero, h]
  · intro v h hv
    simp only [parseBulkString, List.drop_succ_cons, List.drop_zero, h, if_pos hv]
  · intro n h hsmall hle
    have e1 : (2 : Nat) ^ 63 = 9223372036854775808 := by norm_num
    have e2 : (2 : Int) ^ 63 = 9223372036854775808 := by norm_num
    rw [e1] at hsmall
    have hlt : ¬((n : Int) < -1) := by omega
    have hne1 : ¬((n : Int) = -1) := by omega
    have hweq : wrapInt64 ((n : Int) + 2) = (n : Int) + 2 := by
      apply wrapInt64_eq_self
      · rw [e2]
        omega
      · rw [e2]
        omega
    have hwneg : ¬(wrapInt64 ((n : Int) + 2) < 0) := by
      rw [hweq]
      omega
    have htn : (((n : Int)) + 2).toNat = n + 2 := by omega
    have hrf : readFull (wrapInt64 ((n : Int) + 2)).toNat s =
        some (s.take (n + 2), s.drop (n + 2)) := by
      rw [hweq, htn, readFull_eq_some]
      exact ⟨hle, rfl, rfl⟩
    simp only [parseBulkString, List.drop_succ_cons, List.drop_zero, h, if_neg hlt,
      if_neg hne1, if_neg hwneg, hrf]
    have hbl : (s.take (n + 2)).length = n + 2 := by
      rw [List.length_take]
      omega
    rw [hbl]
    have ht2 : (s.take (n + 2)).take (n + 2 - 2) = s.take n := by
      rw [List.take_take]
      have hm : (n + 2 - 2) ⊓ (n + 2) = n := by omega
      rw [hm]
    rw [ht2]
  · intro n h hbig
    have hup := (parseIntGo_range h).2
    have e1 : (2 : Nat) ^ 63 = 9223372036854775808 := by norm_num
    have e2 : (2 : Int) ^ 63 = 9223372036854775808 := by norm_num
    have e3 : (2 : Int) ^ (64 - 1) = 9223372036854775808 := by norm_num
    rw [e3] at hup
    rw [e1] at hbig
    have hlt : ¬((n : Int) < -1) := by omega
    have hne1 : ¬((n : Int) = -1) := by omega
    have hwneg : wrapInt64 ((n : Int) + 2) < 0 := by
      apply wrapInt64_neg
      · rw [e2]
        omega
      · rw [e2]
        omega
    simp only [parseBulkString, List.drop_succ_cons, List.drop_zero, h, if_neg hlt,
      if_neg hne1, if_pos hwneg]

/-- Witness for the amended C7 at the null bulk header. -/
theorem C7_amended_bulkString_witness :
    parseBulkString (36 :: ascii "-1") [] = HRes.ok [Payload.data (Reply.bulk none)] [] :=
  (C7_amended_bulkString (ascii "-1") []).1 (by decide)

/-- C2 counterexample: on the spec example frame with a malformed second
element header, the decoder emits a recoverable protocol error and then
also emits a MultiBulk payload for the abandoned array (containing the
two pre allocated nil elements and the one parsed element), contradicting
the claim that no MultiBulk payload is emitted for that array. -/
theorem C2_counterexample :
    parse0 (ascii "*2" ++ crlf ++ ascii "$3" ++ crlf ++ ascii "foo" ++ crlf ++
        ascii "BADLINE" ++ crlf) =
      [Payload.err (DecErr.protocol (msgIllegalElemHeader ++ (ascii "BADLINE" ++ crlf))),
       Payload.data (Reply.multiBulk [none, none, some (ascii "foo")]),
       Payload.err DecErr.transport] ∧
    Payload.data (Reply.multiBulk [none, none, some (ascii "foo")]) ∈
      parse0 (ascii "*2" ++ crlf ++ ascii "$3" ++ crlf ++ ascii "foo" ++ crlf ++
        ascii "BADLINE" ++ crlf) := by
  exact ⟨by decide, by decide⟩

/-- C2 amended: whenever the next line of an in progress array (any
remaining count, any accumulated slice) is a malformed element header,
the loop emits exactly one recoverable ProtocolError payload and then one
MultiBulk payload holding the accumulated slice, and decoding resumes at
the bytes following the malformed line. -/
theorem C2_amended_arrayAbort (m : Nat) (acc : List (Option Bytes)) (s ln r : Bytes)
    (hsp : splitAtNL s = some (ln, r)) (hbad : badElemHeader ln = true) :
    ∃ msg, parseArrayLoop (m + 1) acc s =
      HRes.ok [Payload.err (DecErr.protocol msg), Payload.data (Reply.multiBulk acc)] r := by
  unfold badElemHeader at hbad
  cases hshape : elemHeaderBadShape ln with
  | true =>
    refine ⟨msgIllegalElemHeader ++ ln, ?_⟩
    simp only [parseArrayLoop, hsp, hshape, if_true]
  | false =>
    rw [hshape] at hbad
    simp only [Bool.false_or] at hbad
    cases hpi : parseIntGo 64 ((ln.take (ln.length - 2)).drop 1) with
    | none =>
      refine ⟨msgIllegalBulkHeader ++ ln, ?_⟩
      simp only [parseArrayLoop, hsp, hshape, Bool.false_eq_true, if_false, hpi]
    | some v =>
      rw [hpi] at hbad
      simp only [decide_eq_true_eq] at hbad
      refine ⟨msgIllegalBulkHeader ++ ln, ?_⟩
      simp only [parseArrayLoop, hsp, hshape, Bool.false_eq_true, if_false, hpi, if_pos hbad]

/-- Witness for the amended C2 at the spec example: remaining count one,
accumulated slice from the first element, malformed header line. -/
theorem C2_amended_arrayAbort_witness :
    ∃ msg, parseArrayLoop 1 [none, none, some (ascii "foo")] (ascii "BADLINE" ++ crlf) =
      HRes.ok [Payload.err (DecErr.protocol msg),
               Payload.data (Reply.multiBulk [none, none, some (ascii "foo")])] [] :=
  C2_amended_arrayAbort 0 [none, none, some (ascii "foo")] (ascii "BADLINE" ++ crlf)
    (ascii "BADLINE" ++ crlf) [] (by decide) (by decide)

/-- C3: after a status line whose content starts with FULLRESYNC, the
decoder first emits the Status payload, then reads one bulk header line
whose declared length must parse as a positive signed 64 bit integer
(anything else delivers the status and one terminal error payload, and
the stream ends), then reads exactly that many raw bytes with no trailing
terminator consumed or expected, emits them as one Bulk payload, and
resumes ordinary decoding exactly at the remaining bytes. -/
theorem C3_fullresync_rawBulk (extra ds body junk tail : Bytes)
    (hex : 10 ∉ extra) (hds : 10 ∉ ds) :
    (∀ n : Nat, parseIntGo 64 ds = some (n : Int) → 0 < n → body.length = n →
      parse0 ((43 :: (fullresyncBytes ++ extra)) ++ 13 :: 10 ::
          ((36 :: ds) ++ 13 :: 10 :: (body ++ tail))) =
        Payload.data (Reply.status (fullresyncBytes ++ extra)) ::
          Payload.data (Reply.bulk (some body)) :: parse0 tail) ∧
    ((parseIntGo 64 ds = none ∨ ∃ v : Int, parseIntGo 64 ds = some v ∧ v ≤ 0) →
      parse0 ((43 :: (fullresyncBytes ++ extra)) ++ 13 :: 10 ::
          ((36 :: ds) ++ 13 :: 10 :: junk)) =
        [Payload.data (Reply.status (fullresyncBytes ++ extra)),
         Payload.err (DecErr.illegalRdbHeader (36 :: ds))]) := by
  have hfr10 : (10 : Nat) ∉ fullresyncBytes := by decide
  have h10 : (10 : Nat) ∉ 43 :: (fullresyncBytes ++ extra) := by
    intro hm
    rcases List.mem_cons.mp hm with h1 | h2
    · simp at h1
    · rcases List.mem_append.mp h2 with h3 | h4
      · exact hfr10 h3
      · exact hex h4
  have hne : (43 :: (fullresyncBytes ++ extra)) ≠ [] := by simp
  constructor
  · intro n hn hpos hb
    have hrdb := parseRDB_ok_general 36 ds body tail n (by decide) hds hn hpos hb
    simp only [List.cons_append] at hrdb
    rw [parse0_unfold, parse0Step_line _ _ hne h10]
    simp [dispatchLine, hasPfx_append, hrdb]
  · intro hbad
    have hrdb := parseRDB_bad_general 36 ds junk (by decide) hds hbad
    simp only [List.cons_append] at hrdb
    rw [parse0_unfold, parse0Step_line _ _ hne h10]
    simp [dispatchLine, hasPfx_append, hrdb]

/-- Witness for C3 at the spec example stream. -/
theorem C3_fullresync_rawBulk_witness :
    parse0 ((43 :: (fullresyncBytes ++ ascii " id 0")) ++ 13 :: 10 ::
        ((36 :: ascii "5") ++ 13 :: 10 :: (ascii "HELLO" ++ []))) =
      [Payload.data (Reply.status (fullresyncBytes ++ ascii " id 0")),
       Payload.data (Reply.bulk (some (ascii "HELLO"))),
       Payload.err DecErr.transport] := by
  have h := (C3_fullresync_rawBulk (ascii " id 0") (ascii "5") (ascii "HELLO") [] []
    (by decide) (by decide)).1 5 (by decide) (by decide) (by decide)
  exact h.trans (by decide)
